import Mathlib

/-!
Verification of the futaba-shieldgemma thread watcher.

Shallow embedding of the repository's Python code:
* `parser.py`     → `FS.parse_post`, `FS.parse_thread`
* `fetcher.py`    → `FS.get_image_urls`
* `classifier.py` → `FS.classify_image`, `FS.classify_from_url`,
                    `FS.classify_image_file`, `FS.download_images_from_thread`,
* `main.py`       → `FS.parse_futaba_url`, `FS.classify_thread_images`,
                    `FS.runInit` (initial fetch block), `FS.runCycle`
                    (one iteration of the `while True` watch loop),
                    `FS.runTrace` (the loop itself), `FS.mainStartup`.

Python dictionaries of a thread snapshot are modelled as association lists in
insertion order; Python `int(...)` applied to a string is `FS.pyInt` (raising
`ValueError` = `none`); exceptions are modelled with `Except FS.PyErr`.
External effects (HTTP downloads, the PIL/torch model) are oracle functions
bundled in `FS.Oracles`.
-/

namespace FS

/-- Python exceptions that the embedded code can raise. -/
inductive PyErr where
  | valueError
  | keyError
  | loadError
deriving DecidableEq, Repr

instance {ε α : Type} [DecidableEq ε] [DecidableEq α] : DecidableEq (Except ε α) :=
  fun x y =>
    match x, y with
    | .ok a, .ok b =>
      if h : a = b then isTrue (by rw [h]) else isFalse (fun hc => h (Except.ok.inj hc))
    | .error a, .error b =>
      if h : a = b then isTrue (by rw [h]) else isFalse (fun hc => h (Except.error.inj hc))
    | .ok _, .error _ => isFalse (fun hc => Except.noConfusion hc)
    | .error _, .ok _ => isFalse (fun hc => Except.noConfusion hc)

/-- One post's JSON object (`thread_data["res"][post_id]`).  Each field is
`none` when the key is absent from the dict; `is_deleted` is the flag that
`parse_thread` mutates into the raw dict for deleted posts. -/
structure PostData where
  name : Option String := none
  com : Option String := none
  now : Option String := none
  src : Option String := none
  ext : Option String := none
  thumb : Option String := none
  tim : Option String := none
  del : Option String := none
  is_deleted : Bool := false
deriving DecidableEq, Repr

/-- A thread snapshot as returned by `fetch_thread`: `res` is `none` when the
dict has no `"res"` key (an empty/falsy dict also has none), otherwise the
entries of `thread_data["res"]` in dict (insertion) order. -/
structure ThreadData where
  res : Option (List (String × PostData))
deriving DecidableEq, Repr

/-- Python truthiness of an optional string value (`post_data.get(k)`):
absent (`None`) and the empty string are falsy. -/
def truthy : Option String → Bool
  | none => false
  | some s => !s.isEmpty

/-- Decimal digits to a number; `none` when empty or a non-digit appears. -/
def digitChunk : List Char → Option Nat
  | [] => none
  | cs => cs.foldl (fun acc c =>
      match acc with
      | none => none
      | some n => if c.isDigit then some (n * 10 + (c.toNat - 48)) else none)
      (some 0)

/-- Whitespace stripped by Python's `int` before parsing. -/
def isSpaceChar (c : Char) : Bool :=
  c = ' ' || c = '\t' || c = '\n' || c = '\r'

/-- Strip surrounding whitespace from a character list. -/
def stripChars (cs : List Char) : List Char :=
  ((cs.dropWhile isSpaceChar).reverse.dropWhile isSpaceChar).reverse

/-- Python `int(s)` on a string: strips surrounding whitespace, allows one
leading sign, then decimal digits; `none` models the `ValueError` raise. -/
def pyInt (s : String) : Option Int :=
  match stripChars s.toList with
  | '-' :: rest => (digitChunk rest).map (fun n => -(n : Int))
  | '+' :: rest => (digitChunk rest).map (fun n => (n : Int))
  | cs => (digitChunk cs).map (fun n => (n : Int))

/-- `int(...)` where the caller's context guarantees the string is numeric
(every call site is behind a successful `parse_thread`, whose sort key already
evaluated `int` on each id). -/
def pyIntD (s : String) : Int := (pyInt s).getD 0

/-- A parsed post as produced by `FutabaParser.parse_post`. -/
structure ParsedPost where
  post_id : String
  name : String
  text : String
  date : String
  has_image : Bool
  image_path : Option String
  thumbnail_path : Option String
  raw : PostData
deriving DecidableEq, Repr

/-- `FutabaParser.parse_post`: total over a post dict; absent fields fall back
to defaults via `.get`. -/
def parse_post (post_id : String) (post_data : PostData) : ParsedPost :=
  let post_name := post_data.name.getD "名無し"
  let post_text0 := post_data.com.getD ""
  let post_text := if post_text0.isEmpty then post_text0
                   else post_text0.replace "<br>" "\n"
  let post_date := post_data.now.getD ""
  let has_image := truthy post_data.src && truthy post_data.ext
  { post_id := post_id
    name := post_name
    text := post_text
    date := post_date
    has_image := has_image
    image_path := if has_image then some (post_data.src.getD "") else none
    thumbnail_path := if has_image then some (post_data.thumb.getD "") else none
    raw := post_data }

/-- The in-place mutation in `parse_thread`'s loop: a post whose `del` value
is `"del"` gets `is_deleted = True` written into its raw dict. -/
def markDeleted (pd : PostData) : PostData :=
  if pd.del = some "del" then { pd with is_deleted := true } else pd

/-- The decorate step of `sorted(thread_data["res"].items(), key=lambda x:
int(x[0]))`: CPython applies the key function to every element before
comparing, so one non-numeric id key raises `ValueError` (= `none`). -/
def keyedPosts : List (String × PostData) → Option (List (Int × String × PostData))
  | [] => some []
  | e :: rest =>
    match pyInt e.1, keyedPosts rest with
    | some k, some tail => some ((k, e.1, e.2) :: tail)
    | _, _ => none

/-- Stable insertion keyed by an `Int` projection: the new element goes after
every element whose key is `≤` its own, so ties keep their original order
(the output agrees with CPython's stable `sorted`). -/
def insertByKey {α : Type} (key : α → Int) (a : α) : List α → List α
  | [] => [a]
  | b :: l => if key b ≤ key a then b :: insertByKey key a l else a :: b :: l

/-- Stable sort by an `Int` key (insertion sort; same output as `sorted`). -/
def sortByKey {α : Type} (key : α → Int) (l : List α) : List α :=
  l.foldl (fun acc a => insertByKey key a acc) []

/-- `FutabaParser.parse_thread`: guard on a missing/falsy `res`, sort the
entries by `int(post_id)` (a stable sort, like CPython's), mark deleted posts
in their raw dicts, and parse each post. -/
def parse_thread (thread_data : ThreadData) : Except PyErr (List ParsedPost) :=
  match thread_data.res with
  | none => .ok []
  | some res =>
    match keyedPosts res with
    | none => .error .valueError
    | some keyed =>
      let sorted_posts := sortByKey (fun e => e.1) keyed
      .ok (sorted_posts.map (fun e => parse_post e.2.1 (markDeleted e.2.2)))

/-- One element of `FutabaFetcher.get_image_urls`'s result:
(post id, image filename, image URL). -/
abbrev ImageEntry := String × String × String

/-- The loop body of `get_image_urls` over `thread_data["res"].items()`:
a post is selected when `src` and `tim` are truthy, then `ext` is read with
`post_data['ext']`, which raises `KeyError` when the key is absent. -/
def imageUrlsLoop (domain : String) :
    List (String × PostData) → Except PyErr (List ImageEntry)
  | [] => .ok []
  | (post_id, post_data) :: rest =>
    if truthy post_data.src && truthy post_data.tim then
      match post_data.ext with
      | none => .error .keyError
      | some e =>
        match imageUrlsLoop domain rest with
        | .error err => .error err
        | .ok tail =>
          .ok ((post_id, post_data.tim.getD "" ++ e,
                "https://" ++ domain ++ post_data.src.getD "") :: tail)
    else imageUrlsLoop domain rest

/-- `FutabaFetcher.get_image_urls` (with `self.domain` passed explicitly). -/
def get_image_urls (domain : String) (thread_data : ThreadData) :
    Except PyErr (List ImageEntry) :=
  match thread_data.res with
  | none => .ok []
  | some res => imageUrlsLoop domain res

/-! ### Classifier (`classifier.py`)

The PIL/torch side is external; it enters as oracles: `loadOk` (does
`from_pretrained` succeed), `infer` (the probability `probabilities[i][0]`
each category gets from the model, or an in-`try` exception), `openFile` /
`download` (does `Image.open` / the HTTP fetch produce an image). -/

/-- Abstract handle for a PIL image object. -/
abbrev Img := Nat

/-- Mutable classifier state: whether the model has been loaded. -/
structure ClfState where
  loaded : Bool
deriving DecidableEq, Repr

/-- `self.categories` of `ShieldGemmaClassifier`. -/
def categories : List String := ["性的表現", "危険なコンテンツ", "暴力・グロテスク"]

/-- The error return `{category: -1.0 for category in self.categories}`. -/
def sentinelResult : List (String × ℚ) := categories.map (fun c => (c, -1))

/-- `ShieldGemmaClassifier.classify_image`.  The `if not self.loaded:
self.load_model()` guard sits OUTSIDE the `try`, and `load_model` re-raises
on failure, so a failing lazy load propagates (`.error`).  Inside the `try`,
any failure of preprocessing/inference is caught and mapped to the sentinel. -/
def classify_image (loadOk : Bool) (infer : Img → Except Unit (Fin 3 → ℚ))
    (st : ClfState) (image : Img) : Except PyErr (ClfState × List (String × ℚ)) :=
  if !st.loaded && !loadOk then .error .loadError
  else
    let st' : ClfState := { loaded := true }
    match infer image with
    | .error _ => .ok (st', sentinelResult)
    | .ok probs =>
      .ok (st', [("性的表現", probs 0), ("危険なコンテンツ", probs 1),
                 ("暴力・グロテスク", probs 2)])

/-- `ShieldGemmaClassifier.classify_from_url`: a failed download yields the
sentinel without touching the model; otherwise `classify_image` is called
OUTSIDE any `try`, so its load-failure exception propagates. -/
def classify_from_url (loadOk : Bool) (infer : Img → Except Unit (Fin 3 → ℚ))
    (download : String → Option Img) (st : ClfState) (url : String) :
    Except PyErr (ClfState × List (String × ℚ)) :=
  match download url with
  | some image => classify_image loadOk infer st image
  | none => .ok (st, sentinelResult)

/-- `ShieldGemmaClassifier.classify_image_file`: the `try` wraps both
`Image.open` and the `classify_image` call, so every exception (including a
load failure) is caught and mapped to the sentinel. -/
def classify_image_file (loadOk : Bool) (infer : Img → Except Unit (Fin 3 → ℚ))
    (openFile : String → Option Img) (st : ClfState) (file_path : String) :
    Except PyErr (ClfState × List (String × ℚ)) :=
  match openFile file_path with
  | none => .ok (st, sentinelResult)
  | some image =>
    match classify_image loadOk infer st image with
    | .ok r => .ok r
    | .error _ => .ok (st, sentinelResult)

/-- External effects of one process run. -/
structure Oracles where
  /-- Does the `requests.get` + file write in `download_images_from_thread`
  succeed for this (post id, filename, url) entry. -/
  dl : ImageEntry → Bool
  /-- Does `from_pretrained` succeed in `load_model`. -/
  loadOk : Bool
  /-- The model's per-category probability `probabilities[i][0]` for an image,
  or an exception inside `classify_image`'s `try`. -/
  infer : Img → Except Unit (Fin 3 → ℚ)
  /-- Does `Image.open(file_path)` succeed, and on what image. -/
  openFile : String → Option Img

/-- `download_images_from_thread` restricted to its observable result: the
`downloaded_files` dict as an association list (post id ↦ saved filename) in
insertion order; a failed download logs and skips the entry. -/
def download_images_from_thread (o : Oracles) :
    List ImageEntry → List (String × String)
  | [] => []
  | entry :: rest =>
    if o.dl entry then (entry.1, entry.2.1) :: download_images_from_thread o rest
    else download_images_from_thread o rest

/-- `classify_thread_images` in `main.py`: download, then classify each
downloaded file inside a per-item `try` (an item that raised would be skipped;
`classify_image_file` in fact never raises).  The watch loop only ever calls
this with a loaded model, hence the `⟨true⟩` state. -/
def classify_thread_images (o : Oracles) (image_urls : List ImageEntry) :
    List (String × List (String × ℚ)) :=
  (download_images_from_thread o image_urls).foldr
    (fun e acc =>
      match classify_image_file o.loadOk o.infer o.openFile ⟨true⟩ e.2 with
      | .ok r => (e.1, r.2) :: acc
      | .error _ => acc)
    []

/-! ### The watch loop (`main.py`) -/

/-- Cross-cycle state of `main`: `last_post_id` and `processed_image_ids`.
The Python set is modelled by a list with membership as the set relation
(`update` appends the new ids). -/
structure WatchState where
  last_post_id : Int
  processed_image_ids : List String
deriving DecidableEq, Repr

/-- Configuration distilled from `args`: `classifyEnabled` is
`not args.no_classify` (with the classifier constructed), `classifyAll` is
`args.classify_all`, `domain` comes from the URL. -/
structure Config where
  classifyEnabled : Bool
  classifyAll : Bool
  domain : String
deriving DecidableEq, Repr

/-- Observable output of one steady-state loop iteration. -/
structure CycleOut where
  new_posts : List ParsedPost
  new_images : List ImageEntry
  unprocessed_images : List ImageEntry
  state : WatchState
deriving DecidableEq, Repr

/-- The image half of one loop iteration (`main.py` lines after
`last_post_id` is updated): compute `new_images` from all of the snapshot's
images, filter out already-processed ids, classify, and record the processed
ids.  The `if new_images:` / `if unprocessed_images:` truthiness guards of the
source are dropped: on empty lists the guarded code is the identity on the
state. -/
def dispatchImages (o : Oracles) (cfg : Config) (s : WatchState)
    (new_posts : List ParsedPost) (last_post : ParsedPost)
    (all_images : List ImageEntry) : CycleOut :=
  let new_post_ids := new_posts.map (fun post => post.post_id)
  let new_images := all_images.filter (fun img => new_post_ids.contains img.1)
  if cfg.classifyEnabled then
    let unprocessed_images := new_images.filter
      (fun img => !s.processed_image_ids.contains img.1)
    let results := classify_thread_images o unprocessed_images
    ⟨new_posts, new_images, unprocessed_images,
     ⟨pyIntD last_post.post_id,
      s.processed_image_ids ++ results.map (fun r => r.1)⟩⟩
  else
    ⟨new_posts, new_images, [], ⟨pyIntD last_post.post_id, s.processed_image_ids⟩⟩

/-- `new_posts` of one loop iteration: the parsed posts with
`int(post.get("post_id", 0)) > last_post_id`. -/
def newPostsOf (s : WatchState) (posts : List ParsedPost) : List ParsedPost :=
  posts.filter (fun post => pyIntD post.post_id > s.last_post_id)

/-- One iteration of `main`'s `while True` loop, `fetched` being the value of
`fetcher.fetch_thread(thread)` (`none` = fetch failure, warned and skipped).
An uncaught exception (`ValueError` from the sort key, `KeyError` from
`get_image_urls`) is `.error`: it escapes the loop and crashes the process.
`new_posts` is falsy exactly when its `getLast?` is `none`; `last_post` is
`new_posts[-1]`. -/
def runCycle (o : Oracles) (cfg : Config) (s : WatchState)
    (fetched : Option ThreadData) : Except PyErr CycleOut :=
  match fetched with
  | none => .ok ⟨[], [], [], s⟩
  | some thread_data =>
    match parse_thread thread_data with
    | .error e => .error e
    | .ok all_parsed_posts =>
      match (newPostsOf s all_parsed_posts).getLast? with
      | none => .ok ⟨newPostsOf s all_parsed_posts, [], [], s⟩
      | some last_post =>
        match get_image_urls cfg.domain thread_data with
        | .error e => .error e
        | .ok all_images =>
          .ok (dispatchImages o cfg s (newPostsOf s all_parsed_posts)
            last_post all_images)

/-- Result of the initial-fetch block of `main` (lines before the loop):
the starting `WatchState` plus the image list handed to
`classify_thread_images` at startup (nonempty only in classify-all mode). -/
structure InitOut where
  state : WatchState
  submitted : List ImageEntry
deriving DecidableEq, Repr

/-- The image half of the initial-fetch block (`if image_urls:` onward):
in classify-all mode the existing images are classified and the successfully
downloaded ids recorded; by default every existing image id is marked
processed without classification. -/
def initDispatch (o : Oracles) (cfg : Config) (last0 : Int)
    (image_urls : List ImageEntry) : InitOut :=
  if image_urls = [] then ⟨⟨last0, []⟩, []⟩
  else if cfg.classifyEnabled then
    if cfg.classifyAll then
      ⟨⟨last0, (classify_thread_images o image_urls).map (fun r => r.1)⟩,
       image_urls⟩
    else ⟨⟨last0, image_urls.map (fun img => img.1)⟩, []⟩
  else ⟨⟨last0, []⟩, []⟩

/-- The initial-fetch block of `main`: on fetch failure `main` logs an error
and returns (`.ok none`); otherwise it seeds `last_post_id` from the last
sorted post (0 for an empty thread) and handles existing images per
`initDispatch`. -/
def runInit (o : Oracles) (cfg : Config) (fetched : Option ThreadData) :
    Except PyErr (Option InitOut) :=
  match fetched with
  | none => .ok none
  | some thread_data =>
    match parse_thread thread_data with
    | .error e => .error e
    | .ok parsed_posts =>
      match parsed_posts.getLast? with
      | none => .ok (some ⟨⟨0, []⟩, []⟩)
      | some last_post =>
        match get_image_urls cfg.domain thread_data with
        | .error e => .error e
        | .ok image_urls =>
          .ok (some (initDispatch o cfg (pyIntD last_post.post_id) image_urls))

/-- The watch loop run over a list of fetch results, collecting each cycle's
output. -/
def runTrace (o : Oracles) (cfg : Config) :
    WatchState → List (Option ThreadData) → Except PyErr (List CycleOut)
  | _, [] => .ok []
  | s, f :: rest =>
    match runCycle o cfg s f with
    | .error e => .error e
    | .ok out =>
      match runTrace o cfg out.state rest with
      | .error e => .error e
      | .ok outs => .ok (out :: outs)

/-! ### Startup (`parse_futaba_url` and `main`'s entry) -/

/-- Split a character list at the first occurrence of `"://"`. -/
def breakScheme : List Char → Option (List Char × List Char)
  | [] => none
  | ':' :: '/' :: '/' :: rest => some ([], rest)
  | c :: rest => (breakScheme rest).map (fun p => (c :: p.1, p.2))

/-- `urllib.parse.urlparse(url)` restricted to the two fields `main` reads,
`(netloc, path)`, modelled for `scheme://netloc/path`-shaped and scheme-less
inputs. -/
def urlNetlocPath (url : String) : String × String :=
  match breakScheme url.toList with
  | none => ("", url)
  | some p =>
    let netloc := p.2.takeWhile (fun c => c ≠ '/')
    (String.mk netloc, String.mk (p.2.drop netloc.length))

/-- `re.match(r'/([^/]+)/res/(\d+)\.htm', path)`: anchored at the start,
trailing characters allowed; returns (board, thread id) on a match. -/
def matchThreadPath (path : String) : Option (String × String) :=
  match path.toList with
  | '/' :: rest =>
    let seg := rest.takeWhile (fun c => c ≠ '/')
    if seg.isEmpty then none
    else
      let rest2 := rest.drop seg.length
      if "/res/".toList.isPrefixOf rest2 then
        let rest3 := rest2.drop 5
        let digits := rest3.takeWhile Char.isDigit
        if digits.isEmpty then none
        else
          if ".htm".toList.isPrefixOf (rest3.drop digits.length) then
            some (String.mk seg, String.mk digits)
          else none
      else none
  | _ => none

/-- `parse_futaba_url` in `main.py`: domain must end in `.2chan.net`, path
must match the thread pattern; `ValueError` otherwise. -/
def parse_futaba_url (url : String) : Except PyErr (String × String × String) :=
  let np := urlNetlocPath url
  if !(".2chan.net".toList.isSuffixOf np.1.toList) then .error .valueError
  else
    match matchThreadPath np.2 with
    | none => .error .valueError
    | some bt => .ok (np.1, bt.1, bt.2)

/-- How `main` terminates (or keeps running).  A caught startup error makes
`main` plainly `return`, after which the interpreter exits with status 0;
only an uncaught exception gives a non-zero status. -/
inductive MainOutcome where
  | abortInvalidUrl
  | abortInitFetch
  | running (init : InitOut)
  | crashed (e : PyErr)
deriving DecidableEq, Repr

/-- The process exit status of each outcome: `logger.error` + `return`
terminates `main` normally (status 0); `running` has not exited; an uncaught
exception prints a traceback and exits 1. -/
def processExitCode : MainOutcome → Option Nat
  | .abortInvalidUrl => some 0
  | .abortInitFetch => some 0
  | .running _ => none
  | .crashed _ => some 1

/-- `main` up to entering the watch loop: URL validation, then the initial
fetch block. -/
def mainStartup (o : Oracles) (classifyEnabled classifyAll : Bool)
    (url : String) (fetched : Option ThreadData) : MainOutcome :=
  match parse_futaba_url url with
  | .error _ => .abortInvalidUrl
  | .ok cfgTriple =>
    match runInit o ⟨classifyEnabled, classifyAll, cfgTriple.1⟩ fetched with
    | .error e => .crashed e
    | .ok none => .abortInitFetch
    | .ok (some init) => .running init

/-! ### Result-shape predicate for the classifier boundary -/

/-- Either every category score lies in [0,1] or the result is the all-(-1)
failure sentinel. -/
def boundedOrSentinel (res : List (String × ℚ)) : Prop :=
  (∀ p ∈ res, 0 ≤ p.2 ∧ p.2 ≤ 1) ∨ res = sentinelResult

/-! ### Concrete data for scenario theorems and witnesses -/

/-- A model oracle that scores 0 on every category. -/
def infOk : Img → Except Unit (Fin 3 → ℚ) := fun _ => .ok (fun _ => 0)

/-- Oracles where every external effect succeeds. -/
def oAll : Oracles :=
  { dl := fun _ => true, loadOk := true, infer := infOk, openFile := fun _ => some 0 }

/-- Oracles where every image download fails (everything else succeeds). -/
def oNoDl : Oracles :=
  { dl := fun _ => false, loadOk := true, infer := infOk, openFile := fun _ => some 0 }

/-- Classification on, classify-all off. -/
def cfgOn : Config := ⟨true, false, "may.2chan.net"⟩

/-- Classification on, classify-all on. -/
def cfgAll : Config := ⟨true, true, "may.2chan.net"⟩

/-- A post carrying image I6. -/
def pd6 : PostData :=
  { src := some "/b/src/100.jpg", tim := some "100", ext := some ".jpg" }

/-- A deleted post still carrying image I6. -/
def pd6del : PostData :=
  { src := some "/b/src/100.jpg", tim := some "100", ext := some ".jpg",
    del := some "del" }

/-- A deleted post with no image. -/
def pdDelBare : PostData := { del := some "del" }

/-- The C3 scenario snapshot: posts 4..7, image I6 on post 6, post 7 bare. -/
def td3 : ThreadData := ⟨some [("4", {}), ("5", {}), ("6", pd6), ("7", {})]⟩

/-- A shrunken snapshot (fewer posts than `td3`). -/
def tdSmall : ThreadData := ⟨some [("4", {})]⟩

/-- Posts stored under shuffled ids [3,1,2]. -/
def tdShuffled : ThreadData := ⟨some [("3", {}), ("1", {}), ("2", {})]⟩

/-- A snapshot with a malformed post entry: non-numeric id key. -/
def tdBadKey : ThreadData := ⟨some [("abc", {})]⟩

/-- A post with truthy `src` and `tim` but no `ext` key. -/
def pdNoExt : PostData := { src := some "/b/src/200.jpg", tim := some "200" }

/-- A snapshot whose image-bearing post lacks the `ext` key. -/
def tdNoExt : ThreadData := ⟨some [("1", pdNoExt)]⟩

/-- Displayed as having an image (`src`+`ext`) yet skipped by
`get_image_urls` (no `tim`). -/
def pdSrcExt : PostData := { src := some "/b/src/300.jpg", ext := some ".jpg" }

/-- Not displayed as having an image (empty `ext`) yet selected by
`get_image_urls` (`src`+`tim` truthy, `ext` key present). -/
def pdEmptyExt : PostData :=
  { src := some "/b/src/400.jpg", tim := some "400", ext := some "" }

/-- Snapshot for the deleted-post scenarios: both new posts deleted, post 6
with image, post 7 bare. -/
def td9 : ThreadData := ⟨some [("5", {}), ("6", pd6del), ("7", pdDelBare)]⟩

/-- Extract the cycle output of a run known to succeed. -/
def cycleOutOf (r : Except PyErr CycleOut) : CycleOut :=
  r.toOption.getD ⟨[], [], [], ⟨0, []⟩⟩

/-- Extract the posts of a parse known to succeed. -/
def postsOf (r : Except PyErr (List ParsedPost)) : List ParsedPost :=
  r.toOption.getD []

/-- Extract the outputs of a trace known to succeed. -/
def outsOf (r : Except PyErr (List CycleOut)) : List CycleOut :=
  r.toOption.getD []

/-- Extract the init result of a startup known to succeed. -/
def iniOf (r : Except PyErr (Option InitOut)) : InitOut :=
  (r.toOption.getD none).getD ⟨⟨0, []⟩, []⟩

/-! ### Lemmas about the stable sort -/

theorem mem_insertByKey {α : Type} (key : α → Int) (a x : α) :
    ∀ l : List α, x ∈ insertByKey key a l ↔ x = a ∨ x ∈ l := by
  intro l
  induction l with
  | nil => simp [insertByKey]
  | cons b t ih =>
    simp only [insertByKey]
    split
    · simp only [List.mem_cons, ih]
      tauto
    · simp

theorem pairwise_insertByKey {α : Type} (key : α → Int) (a : α) :
    ∀ l : List α, l.Pairwise (fun x y => key x ≤ key y) →
      (insertByKey key a l).Pairwise (fun x y => key x ≤ key y) := by
  intro l
  induction l with
  | nil => simp [insertByKey]
  | cons b t ih =>
    intro h
    rw [List.pairwise_cons] at h
    obtain ⟨hb, ht⟩ := h
    simp only [insertByKey]
    split
    · rename_i hba
      rw [List.pairwise_cons]
      refine ⟨fun x hx => ?_, ih ht⟩
      rcases (mem_insertByKey key a x t).mp hx with rfl | hx
      · exact hba
      · exact hb x hx
    · rename_i hba
      rw [List.pairwise_cons]
      refine ⟨fun x hx => ?_, List.pairwise_cons.mpr ⟨hb, ht⟩⟩
      rcases List.mem_cons.mp hx with rfl | hx
      · exact le_of_not_le hba
      · exact le_trans (le_of_not_le hba) (hb x hx)

theorem sortByKey_loop_pairwise {α : Type} (key : α → Int) :
    ∀ (l acc : List α), acc.Pairwise (fun x y => key x ≤ key y) →
      (l.foldl (fun acc a => insertByKey key a acc) acc).Pairwise
        (fun x y => key x ≤ key y) := by
  intro l
  induction l with
  | nil => intro acc h; simpa using h
  | cons a t ih =>
    intro acc h
    exact ih (insertByKey key a acc) (pairwise_insertByKey key a acc h)

theorem pairwise_sortByKey {α : Type} (key : α → Int) (l : List α) :
    (sortByKey key l).Pairwise (fun x y => key x ≤ key y) :=
  sortByKey_loop_pairwise key l [] (by simp)

theorem sortByKey_loop_mem {α : Type} (key : α → Int) (x : α) :
    ∀ (l acc : List α),
      x ∈ l.foldl (fun acc a => insertByKey key a acc) acc ↔ x ∈ acc ∨ x ∈ l := by
  intro l
  induction l with
  | nil => intro acc; simp
  | cons a t ih =>
    intro acc
    simp only [List.foldl_cons, ih, mem_insertByKey, List.mem_cons]
    tauto

theorem mem_sortByKey {α : Type} (key : α → Int) (x : α) (l : List α) :
    x ∈ sortByKey key l ↔ x ∈ l := by
  unfold sortByKey
  rw [sortByKey_loop_mem]
  simp

/-! ### Lemmas about `keyedPosts` and `parse_thread` -/

theorem keyedPosts_mem_key :
    ∀ {res keyed}, keyedPosts res = some keyed →
      ∀ x ∈ keyed, pyInt x.2.1 = some x.1 := by
  intro res
  induction res with
  | nil =>
    intro keyed h x hx
    simp only [keyedPosts] at h
    cases h
    cases hx
  | cons e t ih =>
    intro keyed h x hx
    simp only [keyedPosts] at h
    split at h
    · rename_i k tail hk htail
      cases h
      rcases List.mem_cons.mp hx with rfl | hx
      · exact hk
      · exact ih htail x hx
    · cases h

theorem keyedPosts_mem_of_mem :
    ∀ {res keyed pid pd}, keyedPosts res = some keyed → (pid, pd) ∈ res →
      ∃ k, pyInt pid = some k ∧ (k, pid, pd) ∈ keyed := by
  intro res
  induction res with
  | nil => intro _ _ _ _ h; cases h
  | cons e t ih =>
    intro keyed pid pd h hmem
    simp only [keyedPosts] at h
    split at h
    · rename_i k tail hk htail
      cases h
      rcases List.mem_cons.mp hmem with heq | hmem
      · cases heq
        exact ⟨k, hk, List.mem_cons_self _ _⟩
      · obtain ⟨k', hk', hmem'⟩ := ih htail hmem
        exact ⟨k', hk', List.mem_cons_of_mem _ hmem'⟩
    · cases h

theorem keyedPosts_mem_rev :
    ∀ {res keyed k pid pd}, keyedPosts res = some keyed → (k, pid, pd) ∈ keyed →
      (pid, pd) ∈ res := by
  intro res
  induction res with
  | nil =>
    intro keyed _ _ _ h hx
    simp only [keyedPosts] at h
    cases h
    cases hx
  | cons e t ih =>
    intro keyed k pid pd h hx
    simp only [keyedPosts] at h
    split at h
    · rename_i k' tail hk htail
      cases h
      rcases List.mem_cons.mp hx with heq | hx
      · cases heq
        exact List.mem_cons_self _ _
      · exact List.mem_cons_of_mem _ (ih htail hx)
    · cases h

theorem keyedPosts_isSome :
    ∀ {res}, (∀ e ∈ res, (pyInt (Prod.fst e)).isSome) →
      ∃ keyed, keyedPosts res = some keyed := by
  intro res
  induction res with
  | nil => intro _; exact ⟨[], rfl⟩
  | cons e t ih =>
    intro h
    obtain ⟨k, hk⟩ := Option.isSome_iff_exists.mp (h e (List.mem_cons_self _ _))
    obtain ⟨tail, htail⟩ := ih (fun x hx => h x (List.mem_cons_of_mem _ hx))
    exact ⟨(k, e.1, e.2) :: tail, by simp only [keyedPosts, hk, htail]⟩

/-- The id of a parsed post is the id key it was parsed from. -/
theorem parse_post_id (pid : String) (pd : PostData) :
    (parse_post pid pd).post_id = pid := rfl

/-- `parse_thread` yields posts in non-decreasing order of `int(post_id)`. -/
theorem parse_thread_sorted {td posts} (hp : parse_thread td = .ok posts) :
    posts.Pairwise (fun a b => pyIntD a.post_id ≤ pyIntD b.post_id) := by
  unfold parse_thread at hp
  split at hp
  · cases hp
    exact List.Pairwise.nil
  · rename_i res _
    split at hp
    · cases hp
    · rename_i keyed hkeyed
      cases hp
      rw [List.pairwise_map]
      refine (pairwise_sortByKey (fun e => e.1) keyed).imp_of_mem ?_
      intro a b ha hb hab
      have ha' := keyedPosts_mem_key hkeyed a ((mem_sortByKey _ _ _).mp ha)
      have hb' := keyedPosts_mem_key hkeyed b ((mem_sortByKey _ _ _).mp hb)
      simp only [parse_post_id, pyIntD, ha', hb', Option.getD_some]
      exact hab

/-- Every entry of the snapshot appears among the parsed posts. -/
theorem parse_thread_mem {td res posts pid pd} (hres : td.res = some res)
    (hp : parse_thread td = .ok posts) (hmem : (pid, pd) ∈ res) :
    parse_post pid (markDeleted pd) ∈ posts := by
  unfold parse_thread at hp
  split at hp
  · rename_i heq
    rw [heq] at hres
    cases hres
  · rename_i res' heq
    rw [heq] at hres
    injection hres with hres
    subst hres
    split at hp
    · cases hp
    · rename_i keyed hkeyed
      cases hp
      obtain ⟨k, _, hmem'⟩ := keyedPosts_mem_of_mem hkeyed hmem
      exact List.mem_map.mpr ⟨(k, pid, pd), (mem_sortByKey _ _ _).mpr hmem', rfl⟩

/-- Every parsed post comes from an entry of the snapshot. -/
theorem parse_thread_mem_rev {td posts post} (hp : parse_thread td = .ok posts)
    (hpost : post ∈ posts) :
    ∃ res pd, td.res = some res ∧ (post.post_id, pd) ∈ res := by
  unfold parse_thread at hp
  split at hp
  · cases hp
    cases hpost
  · rename_i res hres
    split at hp
    · cases hp
    · rename_i keyed hkeyed
      cases hp
      obtain ⟨e, he, rfl⟩ := List.mem_map.mp hpost
      refine ⟨res, e.2.2, hres, ?_⟩
      have := keyedPosts_mem_rev hkeyed ((mem_sortByKey _ _ _).mp he)
      simpa [parse_post_id] using this

/-- In a list sorted by an `Int` key, every element's key is at most the last
element's key. -/
theorem pairwise_le_getLast {α : Type} (f : α → Int) :
    ∀ (l : List α) (h : l ≠ []), l.Pairwise (fun a b => f a ≤ f b) →
      ∀ a ∈ l, f a ≤ f (l.getLast h) := by
  intro l
  induction l with
  | nil => intro h; cases h rfl
  | cons b t ih =>
    intro h hsort a ha
    rw [List.pairwise_cons] at hsort
    obtain ⟨hb, ht⟩ := hsort
    cases t with
    | nil =>
      rcases List.mem_cons.mp ha with rfl | ha
      · exact le_refl _
      · cases ha
    | cons c t' =>
      rw [List.getLast_cons (by simp)]
      rcases List.mem_cons.mp ha with rfl | ha
      · exact hb _ (List.getLast_mem (by simp))
      · exact ih (by simp) ht a ha

/-! ### Lemmas about `get_image_urls` -/

theorem imageUrlsLoop_mem_of {domain : String} :
    ∀ {res imgs pid pd e}, imageUrlsLoop domain res = .ok imgs →
      (pid, pd) ∈ res → truthy pd.src = true → truthy pd.tim = true →
      pd.ext = some e →
      (pid, pd.tim.getD "" ++ e, "https://" ++ domain ++ pd.src.getD "") ∈ imgs := by
  intro res
  induction res with
  | nil => intro imgs pid pd e _ hmem; cases hmem
  | cons q t ih =>
    intro imgs pid pd e h hmem hs ht he
    obtain ⟨qid, qd⟩ := q
    simp only [imageUrlsLoop] at h
    split at h
    · split at h
      · cases h
      · rename_i e' he'
        split at h
        · cases h
        · rename_i tail htail
          cases h
          rcases List.mem_cons.mp hmem with heq | hmem'
          · rw [Prod.mk.injEq] at heq
            obtain ⟨rfl, rfl⟩ := heq
            rw [he] at he'
            injection he' with he'
            subst he'
            exact List.mem_cons_self _ _
          · exact List.mem_cons_of_mem _ (ih htail hmem' hs ht he)
    · rename_i hcond
      rcases List.mem_cons.mp hmem with heq | hmem'
      · rw [Prod.mk.injEq] at heq
        obtain ⟨rfl, rfl⟩ := heq
        rw [hs, ht] at hcond
        simp at hcond
      · exact ih h hmem' hs ht he

theorem imageUrlsLoop_mem_rev {domain : String} :
    ∀ {res imgs}, imageUrlsLoop domain res = .ok imgs →
      ∀ img ∈ imgs, ∃ pd, (img.1, pd) ∈ res ∧ truthy pd.src = true ∧
        truthy pd.tim = true := by
  intro res
  induction res with
  | nil =>
    intro imgs h img himg
    cases h
    cases himg
  | cons q t ih =>
    intro imgs h img himg
    obtain ⟨qid, qd⟩ := q
    simp only [imageUrlsLoop] at h
    split at h
    · rename_i hcond
      split at h
      · cases h
      · rename_i e he
        split at h
        · cases h
        · rename_i tail htail
          cases h
          rcases List.mem_cons.mp himg with heq | himg'
          · subst heq
            rw [Bool.and_eq_true] at hcond
            exact ⟨qd, List.mem_cons_self _ _, hcond.1, hcond.2⟩
          · obtain ⟨pd, hpd, hps, hpt⟩ := ih htail img himg'
            exact ⟨pd, List.mem_cons_of_mem _ hpd, hps, hpt⟩
    · obtain ⟨pd, hpd, hps, hpt⟩ := ih h img himg
      exact ⟨pd, List.mem_cons_of_mem _ hpd, hps, hpt⟩

theorem get_image_urls_mem_of {domain : String} {td : ThreadData} {res imgs pid pd e}
    (hres : td.res = some res) (h : get_image_urls domain td = .ok imgs)
    (hmem : (pid, pd) ∈ res) (hs : truthy pd.src = true) (ht : truthy pd.tim = true)
    (he : pd.ext = some e) :
    (pid, pd.tim.getD "" ++ e, "https://" ++ domain ++ pd.src.getD "") ∈ imgs := by
  unfold get_image_urls at h
  split at h
  · rename_i heq
    rw [heq] at hres
    cases hres
  · rename_i res' heq
    rw [heq] at hres
    injection hres with hres
    subst hres
    exact imageUrlsLoop_mem_of h hmem hs ht he

theorem get_image_urls_mem_rev {domain : String} {td : ThreadData} {imgs}
    (h : get_image_urls domain td = .ok imgs) :
    ∀ img ∈ imgs, ∃ res pd, td.res = some res ∧ (img.1, pd) ∈ res ∧
      truthy pd.src = true ∧ truthy pd.tim = true := by
  intro img himg
  unfold get_image_urls at h
  split at h
  · cases h
    cases himg
  · rename_i res heq
    obtain ⟨pd, hpd, hps, hpt⟩ := imageUrlsLoop_mem_rev h img himg
    exact ⟨res, pd, heq, hpd, hps, hpt⟩

/-! ### Lemmas about the classifier and downloads -/

theorem classify_image_file_total (loadOk : Bool) (infer : Img → Except Unit (Fin 3 → ℚ))
    (openFile : String → Option Img) (st : ClfState) (p : String) :
    ∃ r, classify_image_file loadOk infer openFile st p = .ok r := by
  unfold classify_image_file
  split
  · exact ⟨_, rfl⟩
  · split
    · exact ⟨_, rfl⟩
    · exact ⟨_, rfl⟩

theorem classify_thread_images_keys (o : Oracles) (image_urls : List ImageEntry) :
    (classify_thread_images o image_urls).map (fun r => r.1) =
      (download_images_from_thread o image_urls).map (fun e => e.1) := by
  unfold classify_thread_images
  generalize download_images_from_thread o image_urls = l
  induction l with
  | nil => rfl
  | cons e t ih =>
    simp only [List.foldr_cons]
    obtain ⟨r, hr⟩ := classify_image_file_total o.loadOk o.infer o.openFile ⟨true⟩ e.2
    rw [hr]
    simp [ih]

theorem mem_download_images {o : Oracles} :
    ∀ {l : List ImageEntry} {entry}, entry ∈ l → o.dl entry = true →
      (entry.1, entry.2.1) ∈ download_images_from_thread o l := by
  intro l
  induction l with
  | nil => intro entry h; cases h
  | cons q t ih =>
    intro entry hmem hdl
    simp only [download_images_from_thread]
    rcases List.mem_cons.mp hmem with rfl | hmem'
    · rw [hdl]
      simp
    · split
      · exact List.mem_cons_of_mem _ (ih hmem' hdl)
      · exact ih hmem' hdl

/-! ### Lemmas about one loop cycle -/

theorem dispatchImages_state_mark (o : Oracles) (cfg : Config) (s : WatchState)
    (np : List ParsedPost) (lp : ParsedPost) (ai : List ImageEntry) :
    (dispatchImages o cfg s np lp ai).state.last_post_id = pyIntD lp.post_id := by
  by_cases hc : cfg.classifyEnabled = true <;> simp [dispatchImages, hc]

theorem dispatchImages_processed_mono (o : Oracles) (cfg : Config) (s : WatchState)
    (np : List ParsedPost) (lp : ParsedPost) (ai : List ImageEntry) :
    ∀ x ∈ s.processed_image_ids,
      x ∈ (dispatchImages o cfg s np lp ai).state.processed_image_ids := by
  intro x hx
  by_cases hc : cfg.classifyEnabled = true <;> simp [dispatchImages, hc]
  · exact Or.inl hx
  · exact hx

theorem dispatchImages_new_posts_eq (o : Oracles) (cfg : Config) (s : WatchState)
    (np : List ParsedPost) (lp : ParsedPost) (ai : List ImageEntry) :
    (dispatchImages o cfg s np lp ai).new_posts = np := by
  by_cases hc : cfg.classifyEnabled = true <;> simp [dispatchImages, hc]

theorem dispatchImages_new_images_eq (o : Oracles) (cfg : Config) (s : WatchState)
    (np : List ParsedPost) (lp : ParsedPost) (ai : List ImageEntry) :
    (dispatchImages o cfg s np lp ai).new_images =
      ai.filter (fun img => (np.map (fun post => post.post_id)).contains img.1) := by
  by_cases hc : cfg.classifyEnabled = true <;> simp [dispatchImages, hc]

theorem dispatchImages_unprocessed_sub (o : Oracles) (cfg : Config) (s : WatchState)
    (np : List ParsedPost) (lp : ParsedPost) (ai : List ImageEntry) :
    ∀ img ∈ (dispatchImages o cfg s np lp ai).unprocessed_images,
      img ∈ (dispatchImages o cfg s np lp ai).new_images ∧
        img.1 ∉ s.processed_image_ids := by
  intro img himg
  by_cases hc : cfg.classifyEnabled = true <;> simp [dispatchImages, hc] at himg ⊢
  · tauto

/-- In the classify branch, a successfully downloaded unprocessed image's
post id is recorded as processed. -/
theorem dispatchImages_recorded (o : Oracles) (cfg : Config) (s : WatchState)
    (np : List ParsedPost) (lp : ParsedPost) (ai : List ImageEntry) :
    ∀ img ∈ (dispatchImages o cfg s np lp ai).unprocessed_images,
      o.dl img = true →
        img.1 ∈ (dispatchImages o cfg s np lp ai).state.processed_image_ids := by
  intro img himg hdl
  by_cases hc : cfg.classifyEnabled = true <;>
    simp only [dispatchImages, hc, if_true, if_false, Bool.false_eq_true] at himg ⊢
  · have hkey : (img.1, img.2.1) ∈ download_images_from_thread o
        (((ai.filter (fun img => (np.map (fun post => post.post_id)).contains img.1))).filter
          (fun img => !s.processed_image_ids.contains img.1)) :=
      mem_download_images himg hdl
    rw [List.mem_append, classify_thread_images_keys]
    exact Or.inr (List.mem_map.mpr ⟨(img.1, img.2.1), hkey, rfl⟩)
  · cases himg

/-- Membership in `newPostsOf`. -/
theorem mem_newPostsOf {s : WatchState} {posts : List ParsedPost} {p : ParsedPost} :
    p ∈ newPostsOf s posts ↔ p ∈ posts ∧ s.last_post_id < pyIntD p.post_id := by
  unfold newPostsOf
  rw [List.mem_filter]
  simp

/-- The last new post's id exceeds the previous mark. -/
theorem getLast_newPosts_gt {s : WatchState} {posts : List ParsedPost} {lp : ParsedPost}
    (hlp : (newPostsOf s posts).getLast? = some lp) :
    s.last_post_id < pyIntD lp.post_id :=
  (mem_newPostsOf.mp (List.mem_of_mem_getLast? hlp)).2

/-- In a sorted snapshot, every new post's id is at most the last new
post's id. -/
theorem newPosts_le_getLast {s : WatchState} {posts : List ParsedPost} {lp p : ParsedPost}
    (hsort : posts.Pairwise (fun a b => pyIntD a.post_id ≤ pyIntD b.post_id))
    (hlp : (newPostsOf s posts).getLast? = some lp)
    (hp : p ∈ newPostsOf s posts) :
    pyIntD p.post_id ≤ pyIntD lp.post_id := by
  have hne : newPostsOf s posts ≠ [] := by
    intro h
    rw [h] at hlp
    cases hlp
  have hsf : (newPostsOf s posts).Pairwise
      (fun a b => pyIntD a.post_id ≤ pyIntD b.post_id) := by
    unfold newPostsOf
    exact hsort.filter _
  have hle := pairwise_le_getLast (fun post => pyIntD post.post_id) _ hne hsf p hp
  rw [List.getLast?_eq_getLast _ hne] at hlp
  injection hlp with hlp
  rw [← hlp]
  exact hle

/-- The mark never regresses and the dispatched set only grows across one
cycle. -/
theorem runCycle_mono {o : Oracles} {cfg : Config} {s : WatchState}
    {f : Option ThreadData} {out : CycleOut} (hrun : runCycle o cfg s f = .ok out) :
    s.last_post_id ≤ out.state.last_post_id ∧
      ∀ x ∈ s.processed_image_ids, x ∈ out.state.processed_image_ids := by
  unfold runCycle at hrun
  split at hrun
  · cases hrun
    exact ⟨le_refl _, fun x hx => hx⟩
  · split at hrun
    · cases hrun
    · rename_i posts hposts
      split at hrun
      · cases hrun
        exact ⟨le_refl _, fun x hx => hx⟩
      · rename_i last_post hlp
        split at hrun
        · cases hrun
        · rename_i all_images himgs
          cases hrun
          refine ⟨?_, dispatchImages_processed_mono o cfg s _ last_post all_images⟩
          rw [dispatchImages_state_mark]
          exact le_of_lt (getLast_newPosts_gt hlp)

/-- In a list sorted by `int(post_id)`, every element's id is at most the
last element's id. -/
theorem le_getLast?_of_pairwise {l : List ParsedPost} {lp p : ParsedPost}
    (hsort : l.Pairwise (fun a b => pyIntD a.post_id ≤ pyIntD b.post_id))
    (hlp : l.getLast? = some lp) (hp : p ∈ l) :
    pyIntD p.post_id ≤ pyIntD lp.post_id := by
  have hne : l ≠ [] := by
    intro h
    rw [h] at hlp
    cases hlp
  have hle := pairwise_le_getLast (fun post => pyIntD post.post_id) _ hne hsort p hp
  rw [List.getLast?_eq_getLast _ hne] at hlp
  injection hlp with hlp
  rw [← hlp]
  exact hle

/-- Every image in a cycle's `new_images` belongs to a post strictly newer
than the incoming mark and no newer than the outgoing mark. -/
theorem runCycle_newImages_bounds {o : Oracles} {cfg : Config} {s : WatchState}
    {f : Option ThreadData} {out : CycleOut} {img : ImageEntry}
    (hrun : runCycle o cfg s f = .ok out) (himg : img ∈ out.new_images) :
    s.last_post_id < pyIntD img.1 ∧ pyIntD img.1 ≤ out.state.last_post_id := by
  unfold runCycle at hrun
  split at hrun
  · cases hrun
    cases himg
  · split at hrun
    · cases hrun
    · rename_i posts hposts
      split at hrun
      · cases hrun
        cases himg
      · rename_i last_post hlp
        split at hrun
        · cases hrun
        · rename_i all_images himgs
          cases hrun
          rw [dispatchImages_new_images_eq] at himg
          have hmem := List.mem_filter.mp himg
          have hid : img.1 ∈ (newPostsOf s posts).map (fun post => post.post_id) := by
            simpa using hmem.2
          obtain ⟨p, hp, hpid⟩ := List.mem_map.mp hid
          constructor
          · rw [← hpid]
            exact (mem_newPostsOf.mp hp).2
          · rw [dispatchImages_state_mark, ← hpid]
            exact newPosts_le_getLast (parse_thread_sorted hposts) hlp hp

/-- A cycle's `unprocessed_images` are among its `new_images` and were not
yet processed. -/
theorem runCycle_unprocessed_sub {o : Oracles} {cfg : Config} {s : WatchState}
    {f : Option ThreadData} {out : CycleOut} (hrun : runCycle o cfg s f = .ok out) :
    ∀ img ∈ out.unprocessed_images,
      img ∈ out.new_images ∧ img.1 ∉ s.processed_image_ids := by
  unfold runCycle at hrun
  split at hrun
  · cases hrun
    intro img himg
    cases himg
  · split at hrun
    · cases hrun
    · split at hrun
      · cases hrun
        intro img himg
        cases himg
      · split at hrun
        · cases hrun
        · cases hrun
          exact dispatchImages_unprocessed_sub o cfg s _ _ _

/-- A successfully downloaded image of `unprocessed_images` is recorded as
processed by the end of the cycle. -/
theorem runCycle_dl_recorded {o : Oracles} {cfg : Config} {s : WatchState}
    {f : Option ThreadData} {out : CycleOut} (hrun : runCycle o cfg s f = .ok out) :
    ∀ img ∈ out.unprocessed_images, o.dl img = true →
      img.1 ∈ out.state.processed_image_ids := by
  unfold runCycle at hrun
  split at hrun
  · cases hrun
    intro img himg
    cases himg
  · split at hrun
    · cases hrun
    · split at hrun
      · cases hrun
        intro img himg
        cases himg
      · split at hrun
        · cases hrun
        · cases hrun
          exact dispatchImages_recorded o cfg s _ _ _

/-! ### Lemmas about the whole loop -/

/-- Once the mark has reached a post id, later cycles never list that post's
image among `new_images`. -/
theorem runTrace_none_below {o : Oracles} {cfg : Config} {pid : String} :
    ∀ {fs : List (Option ThreadData)} {s outs},
      runTrace o cfg s fs = .ok outs → pyIntD pid ≤ s.last_post_id →
      outs.countP (fun c => c.new_images.any (fun img => img.1 = pid)) = 0 := by
  intro fs
  induction fs with
  | nil =>
    intro s outs htr hle
    cases htr
    rfl
  | cons f rest ih =>
    intro s outs htr hle
    unfold runTrace at htr
    split at htr
    · cases htr
    · rename_i out hout
      split at htr
      · cases htr
      · rename_i outs' houts
        cases htr
        have hhead : out.new_images.any (fun img => decide (img.1 = pid)) = false := by
          rw [List.any_eq_false]
          intro img himg
          simp only [decide_eq_true_eq]
          intro heq
          have hb := (runCycle_newImages_bounds hout himg).1
          rw [heq] at hb
          omega
        rw [List.countP_cons]
        simp only [hhead, if_false]
        exact ih houts (le_trans hle (runCycle_mono hout).1)

/-- Across any run of the loop, a given post id's image appears in
`new_images` in at most one cycle. -/
theorem runTrace_atMostOnce {o : Oracles} {cfg : Config} {pid : String} :
    ∀ {fs : List (Option ThreadData)} {s outs},
      runTrace o cfg s fs = .ok outs →
      outs.countP (fun c => c.new_images.any (fun img => img.1 = pid)) ≤ 1 := by
  intro fs
  induction fs with
  | nil =>
    intro s outs htr
    cases htr
    simp
  | cons f rest ih =>
    intro s outs htr
    unfold runTrace at htr
    split at htr
    · cases htr
    · rename_i out hout
      split at htr
      · cases htr
      · rename_i outs' houts
        cases htr
        rw [List.countP_cons]
        by_cases hhead : out.new_images.any (fun img => decide (img.1 = pid)) = true
        · obtain ⟨img, himg, heq⟩ := List.any_eq_true.mp hhead
          have heq' := of_decide_eq_true heq
          have hb := (runCycle_newImages_bounds hout himg).2
          rw [heq'] at hb
          rw [runTrace_none_below houts hb]
          simp [hhead]
        · rw [Bool.not_eq_true] at hhead
          simp only [hhead, if_false, Nat.add_zero]
          exact ih houts

/-- Every cycle output in a trace is a `runCycle` output. -/
theorem runTrace_mem_out {o : Oracles} {cfg : Config} :
    ∀ {fs : List (Option ThreadData)} {s outs},
      runTrace o cfg s fs = .ok outs →
      ∀ c ∈ outs, ∃ s' f, runCycle o cfg s' f = .ok c := by
  intro fs
  induction fs with
  | nil =>
    intro s outs htr c hc
    cases htr
    cases hc
  | cons f rest ih =>
    intro s outs htr c hc
    unfold runTrace at htr
    split at htr
    · cases htr
    · rename_i out hout
      split at htr
      · cases htr
      · rename_i outs' houts
        cases htr
        rcases List.mem_cons.mp hc with rfl | hc'
        · exact ⟨s, f, hout⟩
        · exact ih houts c hc'

/-- The mark is non-decreasing and the processed set only grows, cycle to
cycle, along any run. -/
theorem runTrace_chain {o : Oracles} {cfg : Config} :
    ∀ {fs : List (Option ThreadData)} {s outs},
      runTrace o cfg s fs = .ok outs →
      List.Chain' (fun a b => a.last_post_id ≤ b.last_post_id ∧
          ∀ x ∈ a.processed_image_ids, x ∈ b.processed_image_ids)
        (s :: outs.map (fun c => c.state)) := by
  intro fs
  induction fs with
  | nil =>
    intro s outs htr
    cases htr
    simp
  | cons f rest ih =>
    intro s outs htr
    unfold runTrace at htr
    split at htr
    · cases htr
    · rename_i out hout
      split at htr
      · cases htr
      · rename_i outs' houts
        cases htr
        rw [List.map_cons, List.chain'_cons]
        exact ⟨runCycle_mono hout, ih houts⟩

/-! ### Lemmas about the initial fetch -/

theorem initDispatch_mark (o : Oracles) (cfg : Config) (last0 : Int)
    (image_urls : List ImageEntry) :
    (initDispatch o cfg last0 image_urls).state.last_post_id = last0 := by
  unfold initDispatch
  split
  · rfl
  · split
    · split
      · rfl
      · rfl
    · rfl

theorem initDispatch_submitted (o : Oracles) (cfg : Config) (last0 : Int)
    (image_urls : List ImageEntry) :
    (initDispatch o cfg last0 image_urls).submitted = [] ∨
      (initDispatch o cfg last0 image_urls).submitted = image_urls := by
  unfold initDispatch
  split
  · exact Or.inl rfl
  · split
    · split
      · exact Or.inr rfl
      · exact Or.inl rfl
    · exact Or.inl rfl

/-- Every image submitted for classification at startup belongs to a post
whose id is at most the initial mark. -/
theorem runInit_submitted_le {o : Oracles} {cfg : Config} {f : Option ThreadData}
    {ini : InitOut} (hini : runInit o cfg f = .ok (some ini)) :
    ∀ pid ∈ ini.submitted.map (fun img => img.1),
      pyIntD pid ≤ ini.state.last_post_id := by
  intro pid hpid
  unfold runInit at hini
  split at hini
  · cases hini
  · split at hini
    · cases hini
    · rename_i posts hposts
      split at hini
      · cases hini
        simp at hpid
      · rename_i last_post hlp
        split at hini
        · cases hini
        · rename_i image_urls hurls
          cases hini
          rcases initDispatch_submitted o cfg (pyIntD last_post.post_id) image_urls
            with hs | hs
          · rw [hs] at hpid
            simp at hpid
          · rw [hs] at hpid
            rw [initDispatch_mark]
            obtain ⟨img, himg, rfl⟩ := List.mem_map.mp hpid
            obtain ⟨res, pd, hres, hpd, _, _⟩ := get_image_urls_mem_rev hurls img himg
            have hpost := parse_thread_mem hres hposts hpd
            have hle := le_getLast?_of_pairwise (parse_thread_sorted hposts) hlp hpost
            simpa [parse_post_id] using hle

/-! ### Further helper lemmas for the claims -/

/-- Unfolding equation of `parse_thread` on a snapshot with a `res` list. -/
theorem parse_thread_some (res : List (String × PostData)) :
    parse_thread ⟨some res⟩ =
      match keyedPosts res with
      | none => .error .valueError
      | some keyed =>
        .ok ((sortByKey (fun e => e.1) keyed).map
          (fun e => parse_post e.2.1 (markDeleted e.2.2))) := rfl

/-- Unfolding equation of `runCycle` on a successful fetch. -/
theorem runCycle_some (o : Oracles) (cfg : Config) (s : WatchState)
    (td : ThreadData) :
    runCycle o cfg s (some td) =
      match parse_thread td with
      | .error e => .error e
      | .ok all_parsed_posts =>
        match (newPostsOf s all_parsed_posts).getLast? with
        | none => .ok ⟨newPostsOf s all_parsed_posts, [], [], s⟩
        | some last_post =>
          match get_image_urls cfg.domain td with
          | .error e => .error e
          | .ok all_images =>
            .ok (dispatchImages o cfg s (newPostsOf s all_parsed_posts)
              last_post all_images) := rfl

/-- `new_posts` of any successful cycle is sorted by `int(post_id)`. -/
theorem runCycle_new_posts_sorted {o : Oracles} {cfg : Config} {s : WatchState}
    {f : Option ThreadData} {out : CycleOut} (hrun : runCycle o cfg s f = .ok out) :
    out.new_posts.Pairwise (fun a b => pyIntD a.post_id ≤ pyIntD b.post_id) := by
  unfold runCycle at hrun
  split at hrun
  · cases hrun
    exact List.Pairwise.nil
  · split at hrun
    · cases hrun
    · rename_i posts hposts
      have hsf : (newPostsOf s posts).Pairwise
          (fun a b => pyIntD a.post_id ≤ pyIntD b.post_id) := by
        unfold newPostsOf
        exact (parse_thread_sorted hposts).filter _
      split at hrun
      · cases hrun
        exact hsf
      · split at hrun
        · cases hrun
        · cases hrun
          rw [dispatchImages_new_posts_eq]
          exact hsf

/-- With duplicate-free keys (as in a Python dict), the key determines the
post data. -/
theorem nodup_keys_eq {res : List (String × PostData)} {pid : String}
    {pd pd' : PostData} (hnd : (res.map Prod.fst).Nodup)
    (h1 : (pid, pd) ∈ res) (h2 : (pid, pd') ∈ res) : pd = pd' := by
  induction res with
  | nil => cases h1
  | cons q t ih =>
    rw [List.map_cons, List.nodup_cons] at hnd
    rcases List.mem_cons.mp h1 with he1 | h1'
    · rcases List.mem_cons.mp h2 with he2 | h2'
      · rw [← he2] at he1
        exact congrArg Prod.snd he1
      · exfalso
        apply hnd.1
        rw [← he1]
        exact List.mem_map.mpr ⟨(pid, pd'), h2', rfl⟩
    · rcases List.mem_cons.mp h2 with he2 | h2'
      · exfalso
        apply hnd.1
        rw [← he2]
        exact List.mem_map.mpr ⟨(pid, pd), h1', rfl⟩
      · exact ih hnd.2 h1' h2'

/-- A truthy optional string. -/
theorem truthy_some {v : String} (hv : v ≠ "") : truthy (some v) = true := by
  have hf : v.isEmpty = false := by
    rw [Bool.eq_false_iff]
    intro he
    exact hv ((String.isEmpty_iff v).mp he)
  show (!v.isEmpty) = true
  rw [hf]
  rfl

/-- A successful `classify_image` result: the model got loaded, and the
scores are the model's or the sentinel. -/
theorem classify_image_ok {loadOk : Bool} {infer : Img → Except Unit (Fin 3 → ℚ)}
    {st st' : ClfState} {image : Img} {res : List (String × ℚ)}
    (hinf : ∀ image probs, infer image = .ok probs → ∀ i, 0 ≤ probs i ∧ probs i ≤ 1)
    (h : classify_image loadOk infer st image = .ok (st', res)) :
    st' = ⟨true⟩ ∧ boundedOrSentinel res := by
  unfold classify_image at h
  split at h
  · cases h
  · split at h
    · cases h
      exact ⟨rfl, Or.inr rfl⟩
    · rename_i probs hp
      cases h
      refine ⟨rfl, Or.inl ?_⟩
      intro q hq
      rcases List.mem_cons.mp hq with rfl | hq
      · exact hinf _ _ hp 0
      rcases List.mem_cons.mp hq with rfl | hq
      · exact hinf _ _ hp 1
      rcases List.mem_cons.mp hq with rfl | hq
      · exact hinf _ _ hp 2
      cases hq

/-- `classify_image` cannot raise once the model is loaded. -/
theorem classify_image_loaded_ok (loadOk : Bool)
    (infer : Img → Except Unit (Fin 3 → ℚ)) (st : ClfState) (image : Img)
    (hl : st.loaded = true) :
    ∃ res, classify_image loadOk infer st image = .ok (⟨true⟩, res) := by
  unfold classify_image
  rw [hl]
  simp only [Bool.not_true, Bool.false_and, Bool.false_eq_true, if_false]
  split
  · exact ⟨_, rfl⟩
  · exact ⟨_, rfl⟩

/-! ### Claim theorems -/

/-- C1: across a process run — the initial fetch plus any number of polling
cycles sharing the `last_post_id` / `processed_image_ids` state — a given
post id's image appears in a cycle's `new_images` in at most one cycle, and
is submitted for classification (the startup submission in classify-all mode
plus the steady-state `unprocessed_images`) at most once. -/
theorem C1_at_most_once_dispatch (o : Oracles) (cfg : Config)
    (f0 : Option ThreadData) (fs : List (Option ThreadData)) (ini : InitOut)
    (outs : List CycleOut) (pid : String)
    (hini : runInit o cfg f0 = .ok (some ini))
    (htr : runTrace o cfg ini.state fs = .ok outs) :
    outs.countP (fun c => c.new_images.any (fun img => img.1 = pid)) ≤ 1 ∧
    (if pid ∈ ini.submitted.map (fun img => img.1) then 1 else 0)
        + outs.countP (fun c => c.unprocessed_images.any (fun img => img.1 = pid))
      ≤ 1 := by
  have hmain : outs.countP
      (fun c => c.new_images.any (fun img => img.1 = pid)) ≤ 1 :=
    runTrace_atMostOnce htr
  refine ⟨hmain, ?_⟩
  have hsub : outs.countP (fun c => c.unprocessed_images.any (fun img => img.1 = pid))
      ≤ outs.countP (fun c => c.new_images.any (fun img => img.1 = pid)) := by
    apply List.countP_mono_left
    intro c hc hany
    obtain ⟨s', f', hcyc⟩ := runTrace_mem_out htr c hc
    obtain ⟨img, himg, heq⟩ := List.any_eq_true.mp hany
    exact List.any_eq_true.mpr
      ⟨img, (runCycle_unprocessed_sub hcyc img himg).1, heq⟩
  by_cases hmem : pid ∈ ini.submitted.map (fun img => img.1)
  · rw [if_pos hmem]
    have hle := runInit_submitted_le hini pid hmem
    have h0 := runTrace_none_below htr hle
    omega
  · rw [if_neg hmem]
    omega

/-- Witness for C1 on a concrete classify-all run over two identical
snapshots. -/
theorem C1_at_most_once_dispatch_witness :
    runInit oAll cfgAll (some td3) =
        .ok (some (iniOf (runInit oAll cfgAll (some td3)))) ∧
    runTrace oAll cfgAll (iniOf (runInit oAll cfgAll (some td3))).state [some td3] =
        .ok (outsOf (runTrace oAll cfgAll
          (iniOf (runInit oAll cfgAll (some td3))).state [some td3])) ∧
    ((outsOf (runTrace oAll cfgAll
          (iniOf (runInit oAll cfgAll (some td3))).state [some td3])).countP
        (fun c => c.new_images.any (fun img => img.1 = "6")) ≤ 1 ∧
      (if "6" ∈ (iniOf (runInit oAll cfgAll (some td3))).submitted.map
            (fun img => img.1) then 1 else 0)
          + (outsOf (runTrace oAll cfgAll
              (iniOf (runInit oAll cfgAll (some td3))).state [some td3])).countP
            (fun c => c.unprocessed_images.any (fun img => img.1 = "6")) ≤ 1) :=
  ⟨by decide, by decide,
   C1_at_most_once_dispatch oAll cfgAll (some td3) [some td3] _ _ "6"
     (by decide) (by decide)⟩

/-- C2: over every run of the watch loop, `last_post_id` is non-decreasing
from each cycle to the next and `processed_image_ids` only grows (no entry is
ever removed), for any sequence of snapshots including shrinking ones. -/
theorem C2_monotonic_state (o : Oracles) (cfg : Config) (s : WatchState)
    (fs : List (Option ThreadData)) (outs : List CycleOut)
    (htr : runTrace o cfg s fs = .ok outs) :
    List.Chain' (fun a b => a.last_post_id ≤ b.last_post_id ∧
        ∀ x ∈ a.processed_image_ids, x ∈ b.processed_image_ids)
      (s :: outs.map (fun c => c.state)) :=
  runTrace_chain htr

/-- Witness for C2 on a concrete run whose second snapshot shrank. -/
theorem C2_monotonic_state_witness :
    runTrace oAll cfgOn ⟨0, []⟩ [some td3, some tdSmall] =
        .ok (outsOf (runTrace oAll cfgOn ⟨0, []⟩ [some td3, some tdSmall])) ∧
    List.Chain' (fun a b => a.last_post_id ≤ b.last_post_id ∧
        ∀ x ∈ a.processed_image_ids, x ∈ b.processed_image_ids)
      ((⟨0, []⟩ : WatchState) ::
        (outsOf (runTrace oAll cfgOn ⟨0, []⟩ [some td3, some tdSmall])).map
          (fun c => c.state)) :=
  ⟨by decide,
   C2_monotonic_state oAll cfgOn ⟨0, []⟩ [some td3, some tdSmall] _ (by decide)⟩

/-- C3: with previous mark 5, empty dispatched set, and snapshot posts
[4,5,6,7] where post 6 carries image I6 and post 7 carries none, the cycle
computes `new_posts = [6,7]` in ascending order, `new_images = [I6]`, and the
new mark 7. -/
theorem C3_diff_scenario :
    (runCycle oAll cfgOn ⟨5, []⟩ (some td3)).toOption.map
        (fun out => (out.new_posts.map (fun p => p.post_id), out.new_images,
          out.state.last_post_id)) =
      some (["6", "7"],
        [("6", "100.jpg", "https://may.2chan.net/b/src/100.jpg")], 7) := by
  decide

/-- C4 counterexample: for the invalid URL `https://example.com/b/res/12345.htm`
(wrong domain), `parse_futaba_url` raises `ValueError` and `main` logs a
terminal error and returns — the process then exits with status 0, not the
claimed non-zero status. -/
theorem C4_counterexample :
    parse_futaba_url "https://example.com/b/res/12345.htm" = .error .valueError ∧
    mainStartup oAll true false "https://example.com/b/res/12345.htm" none =
        .abortInvalidUrl ∧
    processExitCode (mainStartup oAll true false
        "https://example.com/b/res/12345.htm" none) = some 0 := by
  exact ⟨rfl, rfl, rfl⟩

/-- C4 amended: for every URL on which `parse_futaba_url` raises
`ValueError`, and likewise when the initial snapshot fetch fails, the program
reports a terminal error and aborts before entering the watch loop — but
`main` returns normally, so the process exit status is 0, not non-zero. -/
theorem C4_startup_abort (o : Oracles) (cE cA : Bool) (url : String)
    (f : Option ThreadData) :
    (∀ e, parse_futaba_url url = .error e →
      mainStartup o cE cA url f = .abortInvalidUrl ∧
        processExitCode (mainStartup o cE cA url f) = some 0) ∧
    (∀ t, parse_futaba_url url = .ok t →
      mainStartup o cE cA url none = .abortInitFetch ∧
        processExitCode (mainStartup o cE cA url none) = some 0) := by
  constructor
  · intro e he
    unfold mainStartup
    rw [he]
    exact ⟨rfl, rfl⟩
  · intro t ht
    unfold mainStartup
    rw [ht]
    exact ⟨rfl, rfl⟩

/-- Witness for the amended C4: a wrong-domain URL and a failed initial fetch
on a valid URL. -/
theorem C4_startup_abort_witness :
    (mainStartup oAll true false "https://example.com/b/res/12345.htm" none =
        .abortInvalidUrl ∧
      processExitCode (mainStartup oAll true false
        "https://example.com/b/res/12345.htm" none) = some 0) ∧
    (mainStartup oAll true false "https://may.2chan.net/b/res/12345.htm" none =
        .abortInitFetch ∧
      processExitCode (mainStartup oAll true false
        "https://may.2chan.net/b/res/12345.htm" none) = some 0) :=
  ⟨(C4_startup_abort oAll true false "https://example.com/b/res/12345.htm"
      none).1 .valueError (by decide),
   (C4_startup_abort oAll true false "https://may.2chan.net/b/res/12345.htm"
      none).2 ("may.2chan.net", "b", "12345") (by decide)⟩

/-- C5 counterexample: a snapshot holding one malformed post entry — its id
key `"abc"` is not a numeric string — makes `parse_thread` raise `ValueError`
(from the sort key) instead of skipping the entry, so `parse_thread` is not
total. -/
theorem C5_counterexample : parse_thread tdBadKey = .error .valueError := by
  decide

/-- C5 amended: `parse_thread` never raises on a snapshot without a `res`
dict or whose post id keys all parse as integers — malformed FIELDS inside a
post are tolerated through defaults — but a post entry whose id key is not
numeric makes `parse_thread` raise `ValueError` rather than being skipped. -/
theorem C5_total_on_numeric_keys (td : ThreadData) :
    (td.res = none → parse_thread td = .ok []) ∧
    (∀ res, td.res = some res → (∀ e ∈ res, (pyInt (Prod.fst e)).isSome) →
      ∃ posts, parse_thread td = .ok posts) := by
  obtain ⟨r⟩ := td
  constructor
  · intro h
    have hr : r = none := h
    subst hr
    rfl
  · intro res hres hnum
    have hr : r = some res := hres
    subst hr
    obtain ⟨keyed, hkeyed⟩ := keyedPosts_isSome hnum
    rw [parse_thread_some, hkeyed]
    exact ⟨_, rfl⟩

/-- Witness for the amended C5 on the concrete snapshot `td3`. -/
theorem C5_total_on_numeric_keys_witness :
    (td3.res = some [("4", {}), ("5", {}), ("6", pd6), ("7", {})]) ∧
    ∃ posts, parse_thread td3 = .ok posts :=
  ⟨by decide,
   (C5_total_on_numeric_keys td3).2 [("4", {}), ("5", {}), ("6", pd6), ("7", {})]
     (by decide) (by decide)⟩

/-- C6 counterexample: in a cycle where post 6's image download fails, the
entry is in `new_images` but its post id is NOT recorded in
`processed_image_ids` at the end of the cycle — contradicting "its postId is
present in the dispatched set regardless of whether its download and
classification succeeded or failed". -/
theorem C6_counterexample :
    runCycle oNoDl cfgOn ⟨5, []⟩ (some td3) =
        .ok (cycleOutOf (runCycle oNoDl cfgOn ⟨5, []⟩ (some td3))) ∧
    ("6", "100.jpg", "https://may.2chan.net/b/src/100.jpg") ∈
        (cycleOutOf (runCycle oNoDl cfgOn ⟨5, []⟩ (some td3))).new_images ∧
    "6" ∉ (cycleOutOf (runCycle oNoDl cfgOn ⟨5, []⟩
        (some td3))).state.processed_image_ids := by
  exact ⟨by decide, by decide, by decide⟩

/-- C6 amended: every SUCCESSFULLY DOWNLOADED entry of a cycle's dispatched
(`unprocessed_images`) list has its post id recorded in the dispatched set
regardless of the classification outcome; an entry whose download fails is
not recorded — yet a later cycle re-fetching the same snapshot still yields
no new image for any of the cycle's posts, because the high-water mark
advanced past them, so classification failure never triggers re-dispatch. -/
theorem C6_record_and_no_redispatch (o : Oracles) (cfg : Config)
    (s : WatchState) (td : ThreadData) (out out2 : CycleOut)
    (hrun : runCycle o cfg s (some td) = .ok out)
    (hrun2 : runCycle o cfg out.state (some td) = .ok out2) :
    (∀ img ∈ out.unprocessed_images, o.dl img = true →
      img.1 ∈ out.state.processed_image_ids) ∧
    (∀ img ∈ out.new_images, ∀ img2 ∈ out2.new_images, img2.1 ≠ img.1) := by
  refine ⟨runCycle_dl_recorded hrun, ?_⟩
  intro img himg img2 himg2
  have h1 := (runCycle_newImages_bounds hrun himg).2
  have h2 := (runCycle_newImages_bounds hrun2 himg2).1
  intro heq
  rw [heq] at h2
  omega

/-- Witness for the amended C6: a successful cycle on `td3` followed by a
re-fetch of the same snapshot. -/
theorem C6_record_and_no_redispatch_witness :
    runCycle oAll cfgOn ⟨5, []⟩ (some td3) =
        .ok (cycleOutOf (runCycle oAll cfgOn ⟨5, []⟩ (some td3))) ∧
    runCycle oAll cfgOn (cycleOutOf (runCycle oAll cfgOn ⟨5, []⟩
          (some td3))).state (some td3) =
        .ok (cycleOutOf (runCycle oAll cfgOn (cycleOutOf (runCycle oAll cfgOn
          ⟨5, []⟩ (some td3))).state (some td3))) ∧
    ((∀ img ∈ (cycleOutOf (runCycle oAll cfgOn ⟨5, []⟩
          (some td3))).unprocessed_images, oAll.dl img = true →
        img.1 ∈ (cycleOutOf (runCycle oAll cfgOn ⟨5, []⟩
          (some td3))).state.processed_image_ids) ∧
      (∀ img ∈ (cycleOutOf (runCycle oAll cfgOn ⟨5, []⟩ (some td3))).new_images,
        ∀ img2 ∈ (cycleOutOf (runCycle oAll cfgOn (cycleOutOf (runCycle oAll
            cfgOn ⟨5, []⟩ (some td3))).state (some td3))).new_images,
          img2.1 ≠ img.1)) :=
  ⟨by decide, by decide,
   C6_record_and_no_redispatch oAll cfgOn ⟨5, []⟩ td3 _ _ (by decide) (by decide)⟩

/-- C7 counterexample: with the model not yet loaded and the load failing,
`classify_image` raises — the lazy `self.load_model()` call sits outside the
`try`, and `load_model` re-raises — so an exception does cross the classify
boundary (and `classify_from_url` forwards it). -/
theorem C7_counterexample :
    classify_image false infOk ⟨false⟩ 0 = .error .loadError ∧
    classify_from_url false infOk (fun _ => some 0) ⟨false⟩ "u" =
      .error .loadError := by
  exact ⟨rfl, rfl⟩

/-- C7 amended: whenever the model's probabilities lie in [0,1], the classify
boundary returns either a mapping with every category score in [0,1] or the
all-(-1) failure sentinel; no exception crosses `classify_image` or
`classify_from_url` PROVIDED the model is already loaded (a failing lazy load
propagates out of both), and `classify_image_file` never raises at all. -/
theorem C7_classifier_boundary (infer : Img → Except Unit (Fin 3 → ℚ))
    (hinf : ∀ image probs, infer image = .ok probs →
      ∀ i, 0 ≤ probs i ∧ probs i ≤ 1) :
    (∀ (loadOk : Bool) (st : ClfState) (image : Img), st.loaded = true →
      ∃ res, classify_image loadOk infer st image = .ok (⟨true⟩, res) ∧
        boundedOrSentinel res) ∧
    (∀ (loadOk : Bool) (download : String → Option Img) (st : ClfState)
        (url : String), st.loaded = true →
      ∃ st' res, classify_from_url loadOk infer download st url = .ok (st', res) ∧
        boundedOrSentinel res) ∧
    (∀ (loadOk : Bool) (openFile : String → Option Img) (st : ClfState)
        (p : String),
      ∃ st' res, classify_image_file loadOk infer openFile st p = .ok (st', res) ∧
        boundedOrSentinel res) := by
  have hmain : ∀ (loadOk : Bool) (st : ClfState) (image : Img), st.loaded = true →
      ∃ res, classify_image loadOk infer st image = .ok (⟨true⟩, res) ∧
        boundedOrSentinel res := by
    intro loadOk st image hl
    obtain ⟨res, hres⟩ := classify_image_loaded_ok loadOk infer st image hl
    exact ⟨res, hres, (classify_image_ok hinf hres).2⟩
  refine ⟨hmain, ?_, ?_⟩
  · intro loadOk download st url hl
    unfold classify_from_url
    cases hd : download url with
    | some image =>
      obtain ⟨res, hres, hbd⟩ := hmain loadOk st image hl
      exact ⟨⟨true⟩, res, hres, hbd⟩
    | none => exact ⟨st, sentinelResult, rfl, Or.inr rfl⟩
  · intro loadOk openFile st p
    unfold classify_image_file
    cases hop : openFile p with
    | none => exact ⟨st, sentinelResult, rfl, Or.inr rfl⟩
    | some image =>
      cases hc : classify_image loadOk infer st image with
      | ok r =>
        obtain ⟨st', res⟩ := r
        exact ⟨st', res, by simp only [hc], (classify_image_ok hinf hc).2⟩
      | error e => exact ⟨st, sentinelResult, by simp only [hc], Or.inr rfl⟩

/-- Witness for the amended C7 with the concrete all-zero scoring model. -/
theorem C7_classifier_boundary_witness :
    ∃ res, classify_image true infOk ⟨true⟩ 0 = .ok (⟨true⟩, res) ∧
      boundedOrSentinel res :=
  (C7_classifier_boundary infOk (by
    intro image probs h i
    injection h with h
    rw [← h]
    exact ⟨le_refl 0, by norm_num⟩)).1 true ⟨true⟩ 0 rfl

/-- C8: the normalizer yields posts sorted in non-decreasing numeric id
order; posts stored under ids [3,1,2] come back as [1,2,3]; and the watch
loop's new-posts filter preserves that order. -/
theorem C8_sorted_order :
    (∀ td posts, parse_thread td = .ok posts →
      posts.Pairwise (fun a b => pyIntD a.post_id ≤ pyIntD b.post_id)) ∧
    ((parse_thread tdShuffled).toOption.map
        (fun posts => posts.map (fun p => p.post_id)) = some ["1", "2", "3"]) ∧
    (∀ o cfg s f out, runCycle o cfg s f = .ok out →
      out.new_posts.Pairwise (fun a b => pyIntD a.post_id ≤ pyIntD b.post_id)) :=
  ⟨fun _ _ hp => parse_thread_sorted hp, by decide,
   fun _ _ _ _ _ hrun => runCycle_new_posts_sorted hrun⟩

/-- Witness for C8 on the concrete snapshot `td3`. -/
theorem C8_sorted_order_witness :
    parse_thread td3 = .ok (postsOf (parse_thread td3)) ∧
    (postsOf (parse_thread td3)).Pairwise
      (fun a b => pyIntD a.post_id ≤ pyIntD b.post_id) :=
  ⟨by decide, C8_sorted_order.1 td3 (postsOf (parse_thread td3)) (by decide)⟩

/-- C9: a new post marked deleted that still carries an attached image whose
post id was not dispatched contributes its image to `new_images`; a deleted
post with no attached image contributes nothing. -/
theorem C9_deleted_posts (o : Oracles) (cfg : Config) (s : WatchState)
    (td : ThreadData) (res : List (String × PostData)) (out : CycleOut)
    (hres : td.res = some res) (hrun : runCycle o cfg s (some td) = .ok out) :
    (∀ pid pd srcv timv extv, (pid, pd) ∈ res → pd.del = some "del" →
      pd.src = some srcv → srcv ≠ "" → pd.tim = some timv → timv ≠ "" →
      pd.ext = some extv → s.last_post_id < pyIntD pid →
      pid ∉ s.processed_image_ids →
      (pid, timv ++ extv, "https://" ++ cfg.domain ++ srcv) ∈ out.new_images) ∧
    (∀ pid pd, (pid, pd) ∈ res → (res.map Prod.fst).Nodup →
      truthy pd.src = false → ∀ img ∈ out.new_images, img.1 ≠ pid) := by
  rw [runCycle_some] at hrun
  split at hrun
  · cases hrun
  · rename_i posts hposts
    split at hrun
    · rename_i hlp
      rw [List.getLast?_eq_none_iff] at hlp
      cases hrun
      constructor
      · intro pid pd srcv timv extv hmem hdel hsrc hsne htim htne hext hkey hproc
        exfalso
        have hpost := parse_thread_mem hres hposts hmem
        have hnew : parse_post pid (markDeleted pd) ∈ newPostsOf s posts :=
          mem_newPostsOf.mpr ⟨hpost, by simpa [parse_post_id] using hkey⟩
        rw [hlp] at hnew
        cases hnew
      · intro pid pd hmem hnd hsrcf img himg
        cases himg
    · rename_i last_post hlp
      split at hrun
      · cases hrun
      · rename_i all_images himgs
        cases hrun
        constructor
        · intro pid pd srcv timv extv hmem hdel hsrc hsne htim htne hext hkey hproc
          have hpost := parse_thread_mem hres hposts hmem
          have hnew : parse_post pid (markDeleted pd) ∈ newPostsOf s posts :=
            mem_newPostsOf.mpr ⟨hpost, by simpa [parse_post_id] using hkey⟩
          have hs' : truthy pd.src = true := by
            rw [hsrc]
            exact truthy_some hsne
          have ht' : truthy pd.tim = true := by
            rw [htim]
            exact truthy_some htne
          have hentry := get_image_urls_mem_of hres himgs hmem hs' ht' hext
          rw [htim, hsrc] at hentry
          simp only [Option.getD_some] at hentry
          rw [dispatchImages_new_images_eq]
          refine List.mem_filter.mpr ⟨hentry, ?_⟩
          have hpidmem : pid ∈ (newPostsOf s posts).map (fun post => post.post_id) :=
            List.mem_map.mpr ⟨parse_post pid (markDeleted pd), hnew, rfl⟩
          simpa using hpidmem
        · intro pid pd hmem hnd hsrcf img himg heq
          rw [dispatchImages_new_images_eq] at himg
          have himg1 := (List.mem_filter.mp himg).1
          obtain ⟨res', pd', hres', hpd', hps', hpt'⟩ :=
            get_image_urls_mem_rev himgs img himg1
          rw [hres] at hres'
          injection hres' with hres'
          subst hres'
          rw [heq] at hpd'
          have hpd := nodup_keys_eq hnd hmem hpd'
          rw [← hpd] at hps'
          rw [hsrcf] at hps'
          cases hps'

/-- Witness for C9 on the concrete snapshot `td9` (deleted post 6 with image,
deleted bare post 7). -/
theorem C9_deleted_posts_witness :
    runCycle oAll cfgOn ⟨5, []⟩ (some td9) =
        .ok (cycleOutOf (runCycle oAll cfgOn ⟨5, []⟩ (some td9))) ∧
    ("6", "100.jpg", "https://may.2chan.net/b/src/100.jpg") ∈
        (cycleOutOf (runCycle oAll cfgOn ⟨5, []⟩ (some td9))).new_images ∧
    ("6", ("100.jpg", "https://may.2chan.net/b/src/100.jpg")).1 ≠ "7" :=
  ⟨by decide,
   (C9_deleted_posts oAll cfgOn ⟨5, []⟩ td9
      [("5", {}), ("6", pd6del), ("7", pdDelBare)]
      (cycleOutOf (runCycle oAll cfgOn ⟨5, []⟩ (some td9)))
      (by decide) (by decide)).1
     "6" pd6del "/b/src/100.jpg" "100" ".jpg" (by decide) (by decide)
     (by decide) (by decide) (by decide) (by decide) (by decide) (by decide)
     (by decide),
   (C9_deleted_posts oAll cfgOn ⟨5, []⟩ td9
      [("5", {}), ("6", pd6del), ("7", pdDelBare)]
      (cycleOutOf (runCycle oAll cfgOn ⟨5, []⟩ (some td9)))
      (by decide) (by decide)).2
     "7" pdDelBare (by decide) (by decide) (by decide)
     ("6", ("100.jpg", "https://may.2chan.net/b/src/100.jpg")) (by decide)⟩

/-- C10: `get_image_urls` selects a post when `src` and `tim` are truthy and
then reads `ext` unguarded, so a post with `src` and `tim` but no `ext` key
raises `KeyError`; and the criterion diverges from `parse_post`'s `has_image`
(`src` and `ext`): a post can display an image yet be absent from the image
list (src+ext, no tim), and vice versa (src+tim with an empty-string ext). -/
theorem C10_selection_divergence :
    get_image_urls "may.2chan.net" tdNoExt = .error .keyError ∧
    ((parse_post "1" pdSrcExt).has_image = true ∧
      get_image_urls "may.2chan.net" ⟨some [("1", pdSrcExt)]⟩ = .ok []) ∧
    ((parse_post "1" pdEmptyExt).has_image = false ∧
      get_image_urls "may.2chan.net" ⟨some [("1", pdEmptyExt)]⟩ =
        .ok [("1", "400", "https://may.2chan.net/b/src/400.jpg")]) := by
  exact ⟨by decide, ⟨by decide, by decide⟩, ⟨by decide, by decide⟩⟩

end FS
